import Mathlib

/-!
Verification development for `colors.py`, a three-stage concurrent pipeline
that generates solid-color raster images, watermarks each with a label and a
complementary-colored filled circle, and relays them into a shared display
buffer.

The Python source is shallowly embedded:
* Python dict values that serve as `TwoWayDict` keys (color-name strings and
  RGB tuples) become the inductive type `PyKey`; a Python `dict` becomes an
  association list with distinct keys (`PyDict`), with lookup / assignment /
  `pop` translated operation by operation.
* `np.full`-created images become an `Image` record carrying dimensions and a
  pixel function; `cv2.circle` (an external library call) is modelled as
  painting every pixel whose Euclidean distance from the center is at most the
  radius, which in particular paints the single center pixel when the radius
  is 0, matching OpenCV's filled-circle rasterization; `cv2.putText` and
  `cv2.getTextSize` are treated as external collaborators and only the text
  string and color handed to them are recorded.
* The stage loops become pure functions over the list of items that arrive on
  the input channel in time; a `get(timeout=1)` finding nothing is an
  `Except.error` (Python raises `queue.Empty`), and a `KeyError` from a
  catalog lookup likewise.  The queues are created unbounded (`mp.Queue()`),
  so `put` never blocks or times out.
* Fallible Python operations (`KeyError` on dict lookup) return `Option`.
-/

/-- A Python value usable as a key of `RGB_COLORS`: either a color-name
string or an RGB tuple.  Components of the tuple are naturals (the catalog
holds values in 0..255). -/
inductive PyKey where
  | s (name : String)
  | rgb (r g b : Nat)
deriving DecidableEq, Repr

/-- A Python `dict` modelled as an association list whose keys are distinct
(`PyDict.keysNodup` below).  Insertion order is kept, as in CPython. -/
abbrev PyDict := List (PyKey × PyKey)

namespace PyDict

/-- Dict lookup `d[k]`, returning `none` where Python raises `KeyError`. -/
def get? (d : PyDict) (k : PyKey) : Option PyKey :=
  match d with
  | [] => none
  | (k', v) :: rest => if k' = k then some v else get? rest k

/-- Dict membership test `k in d`. -/
def hasKey (d : PyDict) (k : PyKey) : Bool :=
  (d.get? k).isSome

/-- Dict assignment `d[k] = v`: updates the existing entry in place if `k` is
already a key, otherwise appends a new entry (CPython insertion order). -/
def set (d : PyDict) (k v : PyKey) : PyDict :=
  match d with
  | [] => [(k, v)]
  | (k', v') :: rest => if k' = k then (k, v) :: rest else (k', v') :: set rest k v

/-- Dict removal `d.pop(k, None)`: removes the entry for `k` if present. -/
def erase (d : PyDict) (k : PyKey) : PyDict :=
  match d with
  | [] => []
  | (k', v') :: rest => if k' = k then rest else (k', v') :: erase rest k

/-- The key view of the dict, in insertion order (`[*d]` in Python). -/
def keys (d : PyDict) : List PyKey :=
  d.map Prod.fst

/-- Well-formedness of the model: a Python dict never has duplicate keys. -/
def keysNodup (d : PyDict) : Prop :=
  d.keys.Nodup

instance (d : PyDict) : Decidable d.keysNodup := by
  unfold keysNodup; infer_instance

end PyDict

/-- `TwoWayDict.__delitem__`: `value = self.data.pop(key)` (raising `KeyError`
— here `none` — if `key` is absent) followed by `self.data.pop(value, None)`. -/
def TwoWayDict.delitem (d : PyDict) (k : PyKey) : Option PyDict :=
  match d.get? k with
  | none => none
  | some v => some ((d.erase k).erase v)

/-- `TwoWayDict.__setitem__`: `if key in self: del self[self[key]]`, then
`if value in self: del self[value]`, then `self.data[key] = value` and
`self.data[value] = key`.  `none` models an escaping `KeyError` from the
internal deletions. -/
def TwoWayDict.setitem (d : PyDict) (k v : PyKey) : Option PyDict :=
  let step1 : Option PyDict :=
    match d.get? k with
    | some kv => TwoWayDict.delitem d kv
    | none => some d
  match step1 with
  | none => none
  | some d1 =>
    let step2 : Option PyDict :=
      if d1.hasKey v then TwoWayDict.delitem d1 v else some d1
    match step2 with
    | none => none
    | some d2 => some ((d2.set k v).set v k)

/-- `UserDict.__init__` applied to a dict literal: `__setitem__` for each
pair in order, failing if any individual insertion raises. -/
def TwoWayDict.insertAll (d : PyDict) : List (PyKey × PyKey) → Option PyDict
  | [] => some d
  | (k, v) :: rest =>
    match TwoWayDict.setitem d k v with
    | none => none
    | some d' => TwoWayDict.insertAll d' rest

/-- The pairs of the `RGB_COLORS` dict literal, in source order. -/
def RGB_COLORS_literal : List (PyKey × PyKey) :=
  [ (.s "black",   .rgb 0 0 0),
    (.s "white",   .rgb 255 255 255),
    (.s "red",     .rgb 255 0 0),
    (.s "yellow",  .rgb 255 255 0),
    (.s "lime",    .rgb 0 255 0),
    (.s "aqua",    .rgb 0 255 255),
    (.s "blue",    .rgb 0 0 255),
    (.s "fuchsia", .rgb 255 0 255) ]

/-- The `RGB_COLORS` catalog: a `TwoWayDict` built from the literal, holding
each pairing in both directions.  (`insertAll` succeeds on the literal, as
`RGB_COLORS_def` below certifies, so the `getD` default is never taken.) -/
def RGB_COLORS : PyDict :=
  (TwoWayDict.insertAll [] RGB_COLORS_literal).getD []

/-- The bijection invariant of a `TwoWayDict` state: every stored pairing is
found by lookup in both directions. -/
def twdInv (d : PyDict) : Prop :=
  ∀ p ∈ d, d.get? p.1 = some p.2 ∧ d.get? p.2 = some p.1

instance (d : PyDict) : Decidable (twdInv d) := by
  unfold twdInv; infer_instance

/-- `get_complement_color`: `np.subtract((255,255,255), rgb_arr).tolist()`.
The tuple of Python ints promotes the arithmetic to int64, so this is exact
integer subtraction, componentwise. -/
def get_complement_color (c : Int × Int × Int) : Int × Int × Int :=
  (255 - c.1, 255 - c.2.1, 255 - c.2.2)

/-- The same subtraction on `Nat` triples, as used on uint8 pixel data (for
catalog colors every component is at most 255, so no truncation occurs). -/
def complementN (c : Nat × Nat × Nat) : Nat × Nat × Nat :=
  (255 - c.1, 255 - c.2.1, 255 - c.2.2)

/-- The key view `[*RGB_COLORS]` that `random.choice` draws from: all 16 keys
(8 names and 8 RGB tuples), in insertion order. -/
def RGB_KEYS : List PyKey :=
  PyDict.keys RGB_COLORS

/-- The generator's normalisation of a drawn key: `if isinstance(rand_color,
tuple): rand_color = RGB_COLORS[rand_color]`.  A tuple key is replaced by its
catalog lookup (whose absence would be a `KeyError`, modelled as `none`); a
string key is kept. -/
def normColor (k : PyKey) : Option PyKey :=
  match k with
  | PyKey.s n => some (PyKey.s n)
  | PyKey.rgb .. => PyDict.get? RGB_COLORS k

/-- The fill value `RGB_COLORS[rand_color]` used by `np.full` after
normalisation.  `none` models a `KeyError`, or `np.full` receiving a
non-tuple fill (which would fail); both are impossible for keys actually
drawn from the catalog. -/
def fillColor (k : PyKey) : Option (Nat × Nat × Nat) :=
  match normColor k with
  | none => none
  | some nk =>
    match PyDict.get? RGB_COLORS nk with
    | some (PyKey.rgb r g b) => some (r, g, b)
    | _ => none

/-- A frame: an `height × width × 3` uint8 array, as a pixel function indexed
row-major (`img.pix y x` is `rgb_image[y][x]`). -/
structure Image where
  height : Nat
  width : Nat
  pix : Nat → Nat → Nat × Nat × Nat

/-- `np.full((h, w, 3), c, dtype=np.uint8)`: a uniformly filled frame. -/
def npFull (h w : Nat) (c : Nat × Nat × Nat) : Image :=
  ⟨h, w, fun _ _ => c⟩

/-- An item travelling on `queue_a` / `queue_b`: a real frame, or the `None`
sentinel marking end of stream. -/
inductive QItem where
  | frame (img : Image)
  | sentinel

/-- `cv2.circle(img, (cx, cy), r, col, thickness=cv2.FILLED)`, an external
OpenCV call, modelled as painting every pixel within Euclidean distance `r`
of the center; a radius-0 filled circle paints exactly the center pixel, as
OpenCV's rasterizer does. -/
def cv2_circle (img : Image) (cx cy r : Nat) (col : Nat × Nat × Nat) : Image :=
  { img with
    pix := fun y x =>
      if ((x : Int) - cx) ^ 2 + ((y : Int) - cy) ^ 2 ≤ (r : Int) ^ 2 then col
      else img.pix y x }

/-- The outcome of watermarking one frame: the frame after the circle is
drawn, together with the arguments handed to the external drawing calls
(`cv2.circle` center/radius/color, `cv2.putText` text/color).  The pixels
`cv2.putText` touches are not modelled. -/
structure Watermarked where
  image : Image
  center : Nat × Nat
  radius : Nat
  circleColor : Nat × Nat × Nat
  text : String
  textColor : Nat × Nat × Nat

/-- The per-frame body of `watermark_images`: computes the circle attributes
from the frame's shape, samples the complement color from pixel `[0][0]`,
draws the circle, then resolves the label text by looking pixel `[0][0]` up
in the catalog — after the circle has been drawn.  `none` models an escaping
`KeyError` (or `cv2.putText` receiving a non-string). -/
def watermarkFrame (img : Image) : Option Watermarked :=
  let center := (img.width / 2, img.height / 2)
  let radius := min img.height img.width / 4
  let comp := complementN (img.pix 0 0)
  let img1 := cv2_circle img (img.width / 2) (img.height / 2) radius comp
  match PyDict.get? RGB_COLORS
      (PyKey.rgb (img1.pix 0 0).1 (img1.pix 0 0).2.1 (img1.pix 0 0).2.2) with
  | some (PyKey.s name) => some ⟨img1, center, radius, comp, name, comp⟩
  | _ => none

/-- An exception escaping a pipeline stage: `queue.Empty` raised by a
timed-out `queue_a.get(timeout=1)` with no handler around it, or a
`KeyError` from a catalog lookup. -/
inductive StageErr where
  | emptyTimeout
  | keyError
deriving DecidableEq, Repr

/-- The `watermark_images` loop over the items that arrive on `queue_a` in
time (`inputs`); `quit t` is the value of `event_quit.is_set()` at the loop's
`t`-th test.  Returns the items put on `queue_b`, or the exception that
escapes the stage: a pop finding the channel empty raises `queue.Empty`,
which no handler in the stage catches. -/
def watermark_images (quit : Nat → Bool) : Nat → List QItem → Except StageErr (List QItem)
  | t, inputs =>
    if quit t then Except.ok [QItem.sentinel]
    else
      match inputs with
      | [] => Except.error StageErr.emptyTimeout
      | QItem.sentinel :: _ => Except.ok [QItem.sentinel]
      | QItem.frame img :: rest =>
        match watermarkFrame img with
        | none => Except.error StageErr.keyError
        | some wm =>
          match watermark_images quit (t + 1) rest with
          | Except.error e => Except.error e
          | Except.ok out => Except.ok (QItem.frame wm.image :: out)

/-- The `generate_rgb_images` loop body, with `i` frames still to produce and
`t` the iteration index: `while i > 0 and not event_quit.is_set()`, draw
`choice t` from the key view, normalise it, fill a fresh frame and put it on
`queue_a`; after the loop put the `None` sentinel.  The queue is unbounded so
`put(timeout=1)` never times out; `none` models an escaping `KeyError`. -/
def generatorLoop (w h : Nat) (choice : Nat → PyKey) (quit : Nat → Bool) :
    Nat → Nat → Option (List QItem)
  | 0, _ => some [QItem.sentinel]
  | i + 1, t =>
    if quit t then some [QItem.sentinel]
    else
      match fillColor (choice t) with
      | none => none
      | some c =>
        match generatorLoop w h choice quit i (t + 1) with
        | none => none
        | some rest => some (QItem.frame (npFull h w c) :: rest)

/-- `generate_rgb_images(num_images, width, height, queue_a, event_quit)`:
the full trace of items put on `queue_a`, with the random draws abstracted as
`choice` and the quit flag's polled values as `quit`. -/
def generate_rgb_images (n w h : Nat) (choice : Nat → PyKey) (quit : Nat → Bool) :
    Option (List QItem) :=
  generatorLoop w h choice quit n 0

/-- A primitive step of the Frame Relay loop in `__main__`, for stating where
each mutation happens relative to the `array_a` lock. -/
inductive RelayAction where
  | waitNextImg
  | popQueueB (item : QItem)
  | acquireLock
  | writeBuffer (img : Image)
  | setStarted
  | clearNextImg
  | releaseLock
  | setQuit

/-- The relay-observable state: the Shared Frame Buffer `array_a` and the
three event flags. -/
structure RelayState where
  buffer : Option Image
  started : Bool
  nextImg : Bool
  quit : Bool

/-- Effect of one primitive relay step on the state. -/
def applyAction (s : RelayState) : RelayAction → RelayState
  | RelayAction.waitNextImg => s
  | RelayAction.popQueueB _ => s
  | RelayAction.acquireLock => s
  | RelayAction.writeBuffer img => { s with buffer := some img }
  | RelayAction.setStarted => { s with started := true }
  | RelayAction.clearNextImg => { s with nextImg := false }
  | RelayAction.releaseLock => s
  | RelayAction.setQuit => { s with quit := true }

/-- The actions that mutate the buffer or the flags accompanying a write. -/
def mutatesState : RelayAction → Bool
  | RelayAction.writeBuffer _ => true
  | RelayAction.setStarted => true
  | RelayAction.clearNextImg => true
  | _ => false

/-- One iteration of the Frame Relay loop as its sequence of primitive steps:
wait on `event_next_img`, pop `queue_b`; on the sentinel set `event_quit`
(and break); otherwise, under `array_a.get_lock()`, overwrite the buffer,
set `event_start` and clear `event_next_img`. -/
def relayIter (item : QItem) : List RelayAction :=
  [RelayAction.waitNextImg, RelayAction.popQueueB item] ++
    match item with
    | QItem.sentinel => [RelayAction.setQuit]
    | QItem.frame img =>
      [RelayAction.acquireLock, RelayAction.writeBuffer img,
       RelayAction.setStarted, RelayAction.clearNextImg, RelayAction.releaseLock]

/-- Run a sequence of primitive relay steps on a state. -/
def runActions (s : RelayState) (tr : List RelayAction) : RelayState :=
  tr.foldl applyAction s

/-- The Frame Relay loop `while not event_quit.is_set()` over the items that
arrive on `queue_b`, returning the final state and the trace of steps; it
stops after the sentinel iteration (break) or when `quit` is observed. -/
def relayLoop (s : RelayState) : List QItem → RelayState × List RelayAction
  | [] => (s, [])
  | item :: rest =>
    if s.quit then (s, [])
    else
      match item with
      | QItem.sentinel => (runActions s (relayIter item), relayIter item)
      | QItem.frame _ =>
        let s' := runActions s (relayIter item)
        let res := relayLoop s' rest
        (res.1, relayIter item ++ res.2)

/-- A non-blocking `queue.get(block=False)`: the front item, if any, and the
rest of the queue. -/
def popFront {α : Type} : List α → Option α × List α
  | [] => (none, [])
  | x :: rest => (some x, rest)

/-- The `cleanup` drain loop in the scenario the claim fixes: an empty
`process_list`, so the `all_exited` poll is always `True` and the loop runs
until both queues report empty.  Each round pops `queue_b` then `queue_a`
non-blockingly, counting successes (an `Empty` outcome is passed over).
Returns the printed drained count and the final queue contents. -/
def cleanup {α : Type} (qa qb : List α) (count : Nat) : Nat × List α × List α :=
  let pb := popFront qb
  let c1 := count + (if pb.1.isSome then 1 else 0)
  let pa := popFront qa
  let c2 := c1 + (if pa.1.isSome then 1 else 0)
  if h : pa.2.isEmpty ∧ pb.2.isEmpty then (c2, pa.2, pb.2)
  else cleanup pa.2 pb.2 c2
termination_by qa.length + qb.length
decreasing_by
  rcases qa with _ | ⟨a, qa⟩ <;> rcases qb with _ | ⟨b, qb⟩ <;>
    simp [popFront] at h ⊢ <;> first
    | exact absurd rfl h
    | omega

/-- The element count of `array_a = mp.Array('I', width.value*height.value*3)`,
allocated once at startup. -/
def sharedArrayLen (w h : Nat) : Nat :=
  w * h * 3

/-- `np.frombuffer(array_a.get_obj()).reshape(height, width, 3)`: reshaping a
flat buffer of `len` elements succeeds exactly when `len = h * w * 3`,
returning the new shape; otherwise numpy raises (modelled as `none`). -/
def frombufferReshape (len h w : Nat) : Option (Nat × Nat × Nat) :=
  if len = h * w * 3 then some (h, w, 3) else none

namespace PyDict

theorem get?_set_self (d : PyDict) (k v : PyKey) : get? (set d k v) k = some v := by
  induction d with
  | nil => simp [set, get?]
  | cons p rest ih =>
    rcases p with ⟨k', v'⟩
    by_cases h : k' = k
    · simp [set, h, get?]
    · simp [set, h, get?, ih]

theorem get?_set_ne (d : PyDict) (k v x : PyKey) (hx : x ≠ k) :
    get? (set d k v) x = get? d x := by
  have hkx : ¬k = x := fun e => hx e.symm
  induction d with
  | nil => simp [set, get?, hkx]
  | cons p rest ih =>
    rcases p with ⟨k', v'⟩
    by_cases h : k' = k
    · simp [set, h, get?, hkx]
    · simp [set, h, get?, ih]

theorem get?_erase_ne (d : PyDict) (k x : PyKey) (hx : x ≠ k) :
    get? (erase d k) x = get? d x := by
  have hkx : ¬k = x := fun e => hx e.symm
  induction d with
  | nil => simp [erase]
  | cons p rest ih =>
    rcases p with ⟨k', v'⟩
    by_cases h : k' = k
    · simp [erase, h, get?, hkx]
    · simp [erase, h, get?, ih]

theorem get?_isSome_iff_mem_keys (d : PyDict) (k : PyKey) :
    (get? d k).isSome ↔ k ∈ keys d := by
  induction d with
  | nil => simp [get?, keys]
  | cons p rest ih =>
    rcases p with ⟨k', v'⟩
    by_cases h : k' = k
    · subst h; simp [get?, keys]
    · have h' : ¬k = k' := fun e => h e.symm
      simp only [get?, if_neg h, keys, List.map_cons, List.mem_cons]
      simp only [keys] at ih
      rw [ih]
      tauto

theorem keys_erase_sublist (d : PyDict) (k : PyKey) :
    (keys (erase d k)).Sublist (keys d) := by
  induction d with
  | nil => simp [erase]
  | cons p rest ih =>
    rcases p with ⟨k', v'⟩
    by_cases h : k' = k
    · simp only [erase, h, if_pos rfl, keys, List.map_cons]
      exact List.sublist_cons_self _ _
    · simpa [erase, h, keys] using ih.cons₂ k'

theorem keysNodup_erase (d : PyDict) (k : PyKey) (hnd : keysNodup d) :
    keysNodup (erase d k) :=
  (keys_erase_sublist d k).nodup hnd

theorem get?_erase_self (d : PyDict) (k : PyKey) (hnd : keysNodup d) :
    get? (erase d k) k = none := by
  induction d with
  | nil => rfl
  | cons p rest ih =>
    rcases p with ⟨k', v'⟩
    simp only [keysNodup, keys, List.map_cons, List.nodup_cons] at hnd
    by_cases h : k' = k
    · subst h
      simp only [erase, if_pos rfl]
      cases he : get? rest k' with
      | none => exact he
      | some w =>
        have hm : k' ∈ keys rest := (get?_isSome_iff_mem_keys rest k').mp (by simp [he])
        exact absurd hm hnd.1
    · simp only [erase, if_neg h, get?, if_neg h]
      exact ih hnd.2

theorem get?_none_erase (d : PyDict) (k x : PyKey) (h : get? d k = none) :
    get? (erase d x) k = none := by
  cases he : get? (erase d x) k with
  | none => rfl
  | some w =>
    have hmem : k ∈ keys (erase d x) :=
      (get?_isSome_iff_mem_keys _ k).mp (by simp [he])
    have hk : k ∈ keys d := (keys_erase_sublist d x).mem hmem
    have hs := (get?_isSome_iff_mem_keys d k).mpr hk
    simp [h] at hs

theorem mem_keys_set (d : PyDict) (k v x : PyKey) :
    x ∈ keys (set d k v) ↔ x ∈ keys d ∨ x = k := by
  rw [← get?_isSome_iff_mem_keys, ← get?_isSome_iff_mem_keys]
  by_cases hx : x = k
  · subst hx
    simp [get?_set_self]
  · rw [get?_set_ne d k v x hx]
    simp [hx]

theorem keysNodup_set (d : PyDict) (k v : PyKey) (hnd : keysNodup d) :
    keysNodup (set d k v) := by
  induction d with
  | nil => simp [set, keys, keysNodup]
  | cons p rest ih =>
    rcases p with ⟨k', v'⟩
    simp only [keysNodup, keys, List.map_cons, List.nodup_cons] at hnd
    by_cases h : k' = k
    · subst h
      have hred : set ((k', v') :: rest) k' v = (k', v) :: rest := by simp [set]
      rw [hred]
      simpa only [keysNodup, keys, List.map_cons, List.nodup_cons] using hnd
    · simp only [set, if_neg h, keysNodup, keys, List.map_cons, List.nodup_cons]
      refine ⟨?_, ih hnd.2⟩
      intro hmem
      rcases (mem_keys_set rest k v k').mp hmem with h2 | h2
      · exact hnd.1 h2
      · exact h h2

theorem mem_of_get?_eq_some (d : PyDict) (k v : PyKey) (h : get? d k = some v) :
    (k, v) ∈ d := by
  induction d with
  | nil => simp [get?] at h
  | cons p rest ih =>
    rcases p with ⟨k', v'⟩
    by_cases he : k' = k
    · subst he
      simp [get?] at h
      subst h
      exact List.mem_cons_self _ _
    · simp only [get?, if_neg he] at h
      exact List.mem_cons_of_mem _ (ih h)

theorem get?_eq_some_of_mem (d : PyDict) (k v : PyKey) (hnd : keysNodup d)
    (h : (k, v) ∈ d) : get? d k = some v := by
  induction d with
  | nil => simp at h
  | cons p rest ih =>
    rcases p with ⟨k', v'⟩
    simp only [keysNodup, keys, List.map_cons, List.nodup_cons] at hnd
    rcases List.mem_cons.mp h with h2 | h2
    · have hk : k = k' := congrArg Prod.fst h2
      have hv : v = v' := congrArg Prod.snd h2
      subst hk
      subst hv
      simp [get?]
    · by_cases he : k' = k
      · subst he
        have : k' ∈ keys rest := List.mem_map_of_mem Prod.fst h2
        exact absurd this hnd.1
      · simp only [get?, if_neg he]
        exact ih hnd.2 h2

theorem mem_erase (d : PyDict) (k : PyKey) (p : PyKey × PyKey) (hnd : keysNodup d)
    (hp : p ∈ erase d k) : p ∈ d ∧ p.1 ≠ k := by
  induction d with
  | nil => simp [erase] at hp
  | cons q rest ih =>
    rcases q with ⟨k', v'⟩
    simp only [keysNodup, keys, List.map_cons, List.nodup_cons] at hnd
    by_cases h : k' = k
    · subst h
      simp only [erase, if_pos rfl] at hp
      refine ⟨List.mem_cons_of_mem _ hp, ?_⟩
      intro hpk
      exact hnd.1 (hpk ▸ List.mem_map_of_mem Prod.fst hp)
    · simp only [erase, if_neg h] at hp
      rcases List.mem_cons.mp hp with h2 | h2
      · subst h2
        exact ⟨List.mem_cons_self _ _, h⟩
      · rcases ih hnd.2 h2 with ⟨h3, h4⟩
        exact ⟨List.mem_cons_of_mem _ h3, h4⟩

theorem mem_set (d : PyDict) (k v : PyKey) (p : PyKey × PyKey) (hnd : keysNodup d)
    (hp : p ∈ set d k v) : p = (k, v) ∨ (p ∈ d ∧ p.1 ≠ k) := by
  induction d with
  | nil =>
    simp [set] at hp
    simp [hp]
  | cons q rest ih =>
    rcases q with ⟨k', v'⟩
    simp only [keysNodup, keys, List.map_cons, List.nodup_cons] at hnd
    by_cases h : k' = k
    · subst h
      simp only [set, if_pos rfl] at hp
      rcases List.mem_cons.mp hp with h2 | h2
      · exact Or.inl h2
      · refine Or.inr ⟨List.mem_cons_of_mem _ h2, ?_⟩
        intro hpk
        exact hnd.1 (hpk ▸ List.mem_map_of_mem Prod.fst h2)
    · simp only [set, if_neg h] at hp
      rcases List.mem_cons.mp hp with h2 | h2
      · subst h2
        exact Or.inr ⟨List.mem_cons_self _ _, h⟩
      · rcases ih hnd.2 h2 with h3 | ⟨h3, h4⟩
        · exact Or.inl h3
        · exact Or.inr ⟨List.mem_cons_of_mem _ h3, h4⟩

end PyDict

/-- If a lookup succeeds in a `TwoWayDict` state satisfying the invariant,
the reverse lookup returns the original key. -/
theorem twdInv_get (d : PyDict) (x y : PyKey) (hinv : twdInv d)
    (h : PyDict.get? d x = some y) : PyDict.get? d y = some x :=
  (hinv (x, y) (PyDict.mem_of_get?_eq_some d x y h)).2

/-- Specification of `TwoWayDict.__delitem__` on a well-formed state: it
succeeds and removes the pairing in both directions, preserving distinctness
of keys and the bijection invariant. -/
theorem delitem_spec (d : PyDict) (k v : PyKey) (hnd : PyDict.keysNodup d)
    (hinv : twdInv d) (hk : PyDict.get? d k = some v) :
    TwoWayDict.delitem d k = some ((PyDict.erase d k).erase v) ∧
    PyDict.keysNodup ((PyDict.erase d k).erase v) ∧
    twdInv ((PyDict.erase d k).erase v) ∧
    PyDict.get? ((PyDict.erase d k).erase v) k = none ∧
    PyDict.get? ((PyDict.erase d k).erase v) v = none ∧
    (∀ p ∈ (PyDict.erase d k).erase v, p ∈ d ∧ p.1 ≠ k ∧ p.1 ≠ v) := by
  have hndE : PyDict.keysNodup (PyDict.erase d k) := PyDict.keysNodup_erase d k hnd
  have hndE2 : PyDict.keysNodup ((PyDict.erase d k).erase v) :=
    PyDict.keysNodup_erase _ v hndE
  have hsub : ∀ p ∈ (PyDict.erase d k).erase v, p ∈ d ∧ p.1 ≠ k ∧ p.1 ≠ v := by
    intro p hp
    rcases PyDict.mem_erase _ v p hndE hp with ⟨hp1, hpv⟩
    rcases PyDict.mem_erase d k p hnd hp1 with ⟨hp2, hpk⟩
    exact ⟨hp2, hpk, hpv⟩
  refine ⟨?_, hndE2, ?_, ?_, ?_, hsub⟩
  · simp [TwoWayDict.delitem, hk]
  · intro p hp
    rcases hsub p hp with ⟨hpd, hpk, hpv⟩
    rcases hinv p hpd with ⟨h1, h2⟩
    have hp2k : p.2 ≠ k := by
      intro he
      rw [he, hk] at h2
      exact hpv (Option.some.injEq .. ▸ h2).symm
    have hp2v : p.2 ≠ v := by
      intro he
      have hv : PyDict.get? d v = some k := twdInv_get d k v hinv hk
      rw [he, hv] at h2
      exact hpk (Option.some.injEq .. ▸ h2).symm
    constructor
    · rw [PyDict.get?_erase_ne _ v p.1 hpv, PyDict.get?_erase_ne d k p.1 hpk]
      exact h1
    · rw [PyDict.get?_erase_ne _ v p.2 hp2v, PyDict.get?_erase_ne d k p.2 hp2k]
      exact h2
  · exact PyDict.get?_none_erase _ k v (PyDict.get?_erase_self d k hnd)
  · exact PyDict.get?_erase_self _ v hndE

/-- Specification of the eviction phase of `TwoWayDict.__setitem__`: on a
well-formed state the insertion succeeds and factors as two direction-setting
assignments over an intermediate state `d2` from which every pairing touching
`k` or `v` has been evicted. -/
theorem setitem_spec (d : PyDict) (k v : PyKey) (hnd : PyDict.keysNodup d)
    (hinv : twdInv d) :
    ∃ d2, TwoWayDict.setitem d k v = some ((PyDict.set d2 k v).set v k) ∧
      PyDict.keysNodup d2 ∧ twdInv d2 ∧
      PyDict.get? d2 k = none ∧ PyDict.get? d2 v = none ∧
      (∀ p ∈ d2, p.1 ≠ k ∧ p.1 ≠ v ∧ p.2 ≠ k ∧ p.2 ≠ v) := by
  have main : ∃ d1, (match PyDict.get? d k with
        | some kv => TwoWayDict.delitem d kv
        | none => some d) = some d1 ∧
      PyDict.keysNodup d1 ∧ twdInv d1 ∧ PyDict.get? d1 k = none := by
    cases hgk : PyDict.get? d k with
    | none => exact ⟨d, rfl, hnd, hinv, hgk⟩
    | some kv =>
      have hrev : PyDict.get? d kv = some k := twdInv_get d k kv hinv hgk
      rcases delitem_spec d kv k hnd hinv hrev with ⟨heq, hn, hi, _, hnone, _⟩
      exact ⟨_, heq, hn, hi, hnone⟩
  rcases main with ⟨d1, heq1, hnd1, hinv1, hk1⟩
  have main2 : ∃ d2, (if PyDict.hasKey d1 v then TwoWayDict.delitem d1 v else some d1)
        = some d2 ∧
      PyDict.keysNodup d2 ∧ twdInv d2 ∧
      PyDict.get? d2 k = none ∧ PyDict.get? d2 v = none := by
    cases hgv : PyDict.get? d1 v with
    | none =>
      refine ⟨d1, ?_, hnd1, hinv1, hk1, hgv⟩
      simp [PyDict.hasKey, hgv]
    | some w =>
      rcases delitem_spec d1 v w hnd1 hinv1 hgv with ⟨heq, hn, hi, hvnone, hwnone, _⟩
      refine ⟨_, ?_, hn, hi, ?_, hvnone⟩
      · simp [PyDict.hasKey, hgv, heq]
      · exact PyDict.get?_none_erase _ k w (PyDict.get?_none_erase _ k v hk1)
  rcases main2 with ⟨d2, heq2, hnd2, hinv2, hk2, hv2⟩
  refine ⟨d2, ?_, hnd2, hinv2, hk2, hv2, ?_⟩
  · simp only [TwoWayDict.setitem, heq1, heq2]
  · intro p hp
    rcases hinv2 p hp with ⟨h1, h2⟩
    refine ⟨?_, ?_, ?_, ?_⟩
    · intro he; rw [he, hk2] at h1; exact Option.noConfusion h1
    · intro he; rw [he, hv2] at h1; exact Option.noConfusion h1
    · intro he; rw [he, hk2] at h2; exact Option.noConfusion h2
    · intro he; rw [he, hv2] at h2; exact Option.noConfusion h2

/-- The key view of the built catalog, computed: 8 names and 8 triples,
interleaved in insertion order. -/
theorem RGB_KEYS_eq :
    RGB_KEYS =
      [PyKey.s "black", PyKey.rgb 0 0 0, PyKey.s "white", PyKey.rgb 255 255 255,
       PyKey.s "red", PyKey.rgb 255 0 0, PyKey.s "yellow", PyKey.rgb 255 255 0,
       PyKey.s "lime", PyKey.rgb 0 255 0, PyKey.s "aqua", PyKey.rgb 0 255 255,
       PyKey.s "blue", PyKey.rgb 0 0 255, PyKey.s "fuchsia", PyKey.rgb 255 0 255] := by
  decide

/-- Every key of the catalog fills the frame with a triple that is itself a
catalog key with components in the uint8 range. -/
theorem fillColor_of_mem (k : PyKey) (hk : k ∈ RGB_KEYS) :
    ∃ r g b, fillColor k = some (r, g, b) ∧ r ≤ 255 ∧ g ≤ 255 ∧ b ≤ 255 ∧
      (PyDict.get? RGB_COLORS (PyKey.rgb r g b)).isSome := by
  rw [RGB_KEYS_eq] at hk
  fin_cases hk <;>
    exact ⟨_, _, _, rfl, by decide, by decide, by decide, by decide⟩

/-- C5: `get_complement_color` is an involution on RGB triples with
components in 0..255, and in particular maps (0,0,0) to (255,255,255) and
(255,0,0) to (0,255,255). -/
theorem get_complement_color_involution (c : Int × Int × Int)
    (h1 : 0 ≤ c.1 ∧ c.1 ≤ 255) (h2 : 0 ≤ c.2.1 ∧ c.2.1 ≤ 255)
    (h3 : 0 ≤ c.2.2 ∧ c.2.2 ≤ 255) :
    get_complement_color (get_complement_color c) = c ∧
    get_complement_color (0, 0, 0) = (255, 255, 255) ∧
    get_complement_color (255, 0, 0) = (0, 255, 255) := by
  refine ⟨?_, by decide, by decide⟩
  rcases c with ⟨r, g, b⟩
  simp only [get_complement_color, Prod.mk.injEq]
  omega

/-- Witness for C5 at the concrete triple (12, 200, 255). -/
theorem get_complement_color_involution_witness :
    (0 ≤ (12 : Int) ∧ (12 : Int) ≤ 255) ∧
    (0 ≤ (200 : Int) ∧ (200 : Int) ≤ 255) ∧
    (0 ≤ (255 : Int) ∧ (255 : Int) ≤ 255) ∧
    get_complement_color (get_complement_color (12, 200, 255)) = (12, 200, 255) :=
  ⟨by decide, by decide, by decide,
    (get_complement_color_involution (12, 200, 255)
      (by decide) (by decide) (by decide)).1⟩

/-- C10: the Shared Frame Buffer is allocated once with `width*height*3`
elements, so reinterpreting it as a `height × width × 3` array — as both the
Viewer (`display_image`) and the Frame Relay loop do — always succeeds, and
a frame of shape `(height, width, 3)`, holding `height*width*3` values,
fits the buffer exactly. -/
theorem shared_buffer_reshape_safe (w h : Nat) :
    frombufferReshape (sharedArrayLen w h) h w = some (h, w, 3) ∧
    sharedArrayLen w h = h * w * 3 := by
  have he : w * h * 3 = h * w * 3 := by ring
  exact ⟨by simp [frombufferReshape, sharedArrayLen, he], by simpa [sharedArrayLen] using he⟩

/-- C2 (counterexample): with the quit flag unset and nothing arriving on
`queue_a`, the Watermarker's `get(timeout=1)` raises `queue.Empty`, which no
handler in the stage catches, so the timeout escapes the stage as an
exception — contradicting the claim that timeouts are swallowed and retried
within the stage. -/
theorem watermark_timeout_escapes_counterexample :
    watermark_images (fun _ => false) 0 [] = Except.error StageErr.emptyTimeout := by
  rfl

/-- C2 (amended): a channel timeout is an uncaught exception, not a retry: a
Watermarker pop that finds the channel empty raises `queue.Empty`, which
escapes and terminates the stage, with no re-check of `quit` and no retry.
(The Generator's `put(timeout=1)` can never time out since the queues are
unbounded, as the generator model reflects.) -/
theorem watermark_timeout_escapes (quit : Nat → Bool) (t : Nat) (hq : quit t = false) :
    watermark_images quit t [] = Except.error StageErr.emptyTimeout := by
  rw [watermark_images, hq]
  simp

/-- Witness for the amended C2 at the always-false quit flag. -/
theorem watermark_timeout_escapes_witness :
    ((fun _ : Nat => false) 0 = false) ∧
    watermark_images (fun _ => false) 0 [] = Except.error StageErr.emptyTimeout :=
  ⟨rfl, watermark_timeout_escapes (fun _ => false) 0 rfl⟩

/-- C9: the catalog stores every pairing in both directions inside the one
underlying dict: both members of each literal (name, rgb) pair are keys of
`RGB_COLORS`, each looking up the other, membership holds for names and
triples alike, iterating yields 16 keys (8 names, 8 triples), and a drawn
triple normalises back to its name. -/
theorem RGB_COLORS_stores_both_directions :
    TwoWayDict.insertAll [] RGB_COLORS_literal = some RGB_COLORS ∧
    RGB_KEYS.length = 16 ∧
    (RGB_KEYS.filter (fun k => match k with
      | PyKey.s _ => true
      | _ => false)).length = 8 ∧
    (RGB_KEYS.filter (fun k => match k with
      | PyKey.rgb .. => true
      | _ => false)).length = 8 ∧
    (∀ p ∈ RGB_COLORS_literal,
      PyDict.hasKey RGB_COLORS p.1 ∧ PyDict.hasKey RGB_COLORS p.2 ∧
      PyDict.get? RGB_COLORS p.1 = some p.2 ∧
      PyDict.get? RGB_COLORS p.2 = some p.1 ∧
      normColor p.2 = some p.1) := by
  decide

/-- Witness for C9 at the aqua entry. -/
theorem RGB_COLORS_stores_both_directions_witness :
    (PyKey.s "aqua", PyKey.rgb 0 255 255) ∈ RGB_COLORS_literal ∧
    (PyDict.hasKey RGB_COLORS (PyKey.s "aqua") ∧
     PyDict.hasKey RGB_COLORS (PyKey.rgb 0 255 255) ∧
     PyDict.get? RGB_COLORS (PyKey.s "aqua") = some (PyKey.rgb 0 255 255) ∧
     PyDict.get? RGB_COLORS (PyKey.rgb 0 255 255) = some (PyKey.s "aqua") ∧
     normColor (PyKey.rgb 0 255 255) = some (PyKey.s "aqua")) :=
  ⟨by decide, RGB_COLORS_stores_both_directions.2.2.2.2
    (PyKey.s "aqua", PyKey.rgb 0 255 255) (by decide)⟩

/-- C8: modelling `random.choice([*RGB_COLORS])` as uniform over the
16-element key view, each of the 8 color names is hit by exactly 2 of the 16
keys after the generator's tuple-normalisation (the name itself and its
triple), i.e. every name is selected with the same probability 2/16; and the
fill value used is always the catalog triple associated with a color name. -/
theorem generator_choice_uniform_over_names :
    RGB_KEYS.length = 16 ∧
    (∀ p ∈ RGB_COLORS_literal,
      (RGB_KEYS.filter (fun k => normColor k = some p.1)).length = 2) ∧
    (∀ k ∈ RGB_KEYS, ∃ name, normColor k = some (PyKey.s name) ∧
      fillColor k = (match PyDict.get? RGB_COLORS (PyKey.s name) with
        | some (PyKey.rgb r g b) => some (r, g, b)
        | _ => none)) := by
  refine ⟨by decide, by decide, ?_⟩
  intro k hk
  rw [RGB_KEYS_eq] at hk
  fin_cases hk <;> exact ⟨_, rfl, by decide⟩

/-- Witness for C8 at the lime entry and the lime triple key. -/
theorem generator_choice_uniform_over_names_witness :
    (PyKey.s "lime", PyKey.rgb 0 255 0) ∈ RGB_COLORS_literal ∧
    (RGB_KEYS.filter (fun k => normColor k = some (PyKey.s "lime"))).length = 2 :=
  ⟨by decide, generator_choice_uniform_over_names.2.1
    (PyKey.s "lime", PyKey.rgb 0 255 0) (by decide)⟩

/-- C3: on any catalog state satisfying the bijection invariant (with
distinct keys, as in a real dict), `TwoWayDict.__setitem__ (k, v)` succeeds,
first evicting any pairing sharing either key, and leaves a state that again
satisfies the invariant, in which `k` and `v` look up each other and every
stored pairing touching `k` or `v` is exactly the new one; and
`TwoWayDict.__delitem__` removes both directions of the deleted pairing,
preserving the invariant. -/
theorem TwoWayDict_setitem_delitem_bijection (d : PyDict) (k v : PyKey)
    (hnd : PyDict.keysNodup d) (hinv : twdInv d) :
    (∃ d', TwoWayDict.setitem d k v = some d' ∧
      PyDict.keysNodup d' ∧ twdInv d' ∧
      PyDict.get? d' k = some v ∧ PyDict.get? d' v = some k ∧
      (∀ p ∈ d', (p.1 = k ∨ p.2 = k) → p = (k, v) ∨ p = (v, k)) ∧
      (∀ p ∈ d', (p.1 = v ∨ p.2 = v) → p = (k, v) ∨ p = (v, k))) ∧
    (∀ w, PyDict.get? d k = some w →
      ∃ d2, TwoWayDict.delitem d k = some d2 ∧
        PyDict.keysNodup d2 ∧ twdInv d2 ∧
        PyDict.get? d2 k = none ∧ PyDict.get? d2 w = none) := by
  constructor
  · rcases setitem_spec d k v hnd hinv with ⟨d2, heq, hnd2, hinv2, hk2, hv2, hfar⟩
    have hndf : PyDict.keysNodup ((PyDict.set d2 k v).set v k) :=
      PyDict.keysNodup_set _ v k (PyDict.keysNodup_set d2 k v hnd2)
    have hgv : PyDict.get? ((PyDict.set d2 k v).set v k) v = some k :=
      PyDict.get?_set_self _ v k
    have hgk : PyDict.get? ((PyDict.set d2 k v).set v k) k = some v := by
      by_cases hkv : k = v
      · rw [hkv] at hgv ⊢
        exact hgv
      · rw [PyDict.get?_set_ne _ v k k hkv]
        exact PyDict.get?_set_self d2 k v
    have hmem : ∀ p ∈ (PyDict.set d2 k v).set v k,
        p = (v, k) ∨ p = (k, v) ∨ (p ∈ d2 ∧ p.1 ≠ k ∧ p.1 ≠ v ∧ p.2 ≠ k ∧ p.2 ≠ v) := by
      intro p hp
      rcases PyDict.mem_set _ v k p (PyDict.keysNodup_set d2 k v hnd2) hp with h1 | ⟨h1, hpv⟩
      · exact Or.inl h1
      · rcases PyDict.mem_set d2 k v p hnd2 h1 with h2 | ⟨h2, hpk⟩
        · exact Or.inr (Or.inl h2)
        · rcases hfar p h2 with ⟨_, _, h2k, h2v⟩
          exact Or.inr (Or.inr ⟨h2, hpk, hpv, h2k, h2v⟩)
    refine ⟨_, heq, hndf, ?_, hgk, hgv, ?_, ?_⟩
    · intro p hp
      rcases hmem p hp with h1 | h1 | ⟨h1, hp1k, hp1v, hp2k, hp2v⟩
      · rw [h1]
        exact ⟨hgv, hgk⟩
      · rw [h1]
        exact ⟨hgk, hgv⟩
      · have e1 : PyDict.get? ((PyDict.set d2 k v).set v k) p.1 = PyDict.get? d2 p.1 := by
          rw [PyDict.get?_set_ne _ v k p.1 hp1v, PyDict.get?_set_ne d2 k v p.1 hp1k]
        have e2 : PyDict.get? ((PyDict.set d2 k v).set v k) p.2 = PyDict.get? d2 p.2 := by
          rw [PyDict.get?_set_ne _ v k p.2 hp2v, PyDict.get?_set_ne d2 k v p.2 hp2k]
        rw [e1, e2]
        exact hinv2 p h1
    · intro p hp hpk
      rcases hmem p hp with h1 | h1 | ⟨_, hp1k, _, hp2k, _⟩
      · exact Or.inr h1
      · exact Or.inl h1
      · rcases hpk with h | h
        · exact absurd h hp1k
        · exact absurd h hp2k
    · intro p hp hpv
      rcases hmem p hp with h1 | h1 | ⟨_, _, hp1v, _, hp2v⟩
      · exact Or.inr h1
      · exact Or.inl h1
      · rcases hpv with h | h
        · exact absurd h hp1v
        · exact absurd h hp2v
  · intro w hw
    rcases delitem_spec d k w hnd hinv hw with ⟨heq, hn, hi, hknone, hwnone, _⟩
    exact ⟨_, heq, hn, hi, hknone, hwnone⟩

/-- Witness for C3: inserting ("red", (7,7,7)) into the built catalog. -/
theorem TwoWayDict_setitem_delitem_bijection_witness :
    PyDict.keysNodup RGB_COLORS ∧ twdInv RGB_COLORS ∧
    (∃ d', TwoWayDict.setitem RGB_COLORS (PyKey.s "red") (PyKey.rgb 7 7 7) = some d' ∧
      PyDict.keysNodup d' ∧ twdInv d' ∧
      PyDict.get? d' (PyKey.s "red") = some (PyKey.rgb 7 7 7) ∧
      PyDict.get? d' (PyKey.rgb 7 7 7) = some (PyKey.s "red") ∧
      (∀ p ∈ d', (p.1 = PyKey.s "red" ∨ p.2 = PyKey.s "red") →
        p = (PyKey.s "red", PyKey.rgb 7 7 7) ∨ p = (PyKey.rgb 7 7 7, PyKey.s "red")) ∧
      (∀ p ∈ d', (p.1 = PyKey.rgb 7 7 7 ∨ p.2 = PyKey.rgb 7 7 7) →
        p = (PyKey.s "red", PyKey.rgb 7 7 7) ∨ p = (PyKey.rgb 7 7 7, PyKey.s "red"))) :=
  ⟨by decide, by decide,
    (TwoWayDict_setitem_delitem_bijection RGB_COLORS (PyKey.s "red") (PyKey.rgb 7 7 7)
      (by decide) (by decide)).1⟩

/-- The generator loop, started with `i` frames to go at iteration `t` and a
never-set quit flag, emits exactly `i` well-formed frames then the sentinel. -/
theorem generatorLoop_spec (w h : Nat) (choice : Nat → PyKey) (quit : Nat → Bool)
    (hq : ∀ t, quit t = false) (hc : ∀ t, choice t ∈ RGB_KEYS) :
    ∀ n t, ∃ frames : List Image,
      generatorLoop w h choice quit n t =
        some (frames.map QItem.frame ++ [QItem.sentinel]) ∧
      frames.length = n ∧
      ∀ f ∈ frames, f.height = h ∧ f.width = w ∧
        (∀ y x, (f.pix y x).1 ≤ 255 ∧ (f.pix y x).2.1 ≤ 255 ∧ (f.pix y x).2.2 ≤ 255) ∧
        (PyDict.get? RGB_COLORS
          (PyKey.rgb (f.pix 0 0).1 (f.pix 0 0).2.1 (f.pix 0 0).2.2)).isSome := by
  intro n
  induction n with
  | zero =>
    intro t
    exact ⟨[], rfl, rfl, by simp⟩
  | succ n ih =>
    intro t
    rcases ih (t + 1) with ⟨frames, heq, hlen, hprops⟩
    rcases fillColor_of_mem (choice t) (hc t) with ⟨r, g, b, hfc, hr, hg, hb, hcat⟩
    refine ⟨npFull h w (r, g, b) :: frames, ?_, by simp [hlen], ?_⟩
    · rw [generatorLoop, hq t]
      simp [hfc, heq]
    · intro f hf
      rcases List.mem_cons.mp hf with hf | hf
      · subst hf
        exact ⟨rfl, rfl, fun y x => ⟨hr, hg, hb⟩, hcat⟩
      · exact hprops f hf

/-- C1: with the quit flag never set during the run, `generate_rgb_images`
puts exactly `n` frames on `queue_a` followed by exactly one `None` sentinel
and puts nothing after the sentinel; every frame is an `h × w × 3` array of
uint8 pixels whose representative pixel (0,0) is an RGB triple present in
the catalog.  (`choice` abstracts `random.choice` over the catalog's key
view.) -/
theorem generate_rgb_images_spec (n w h : Nat) (choice : Nat → PyKey)
    (quit : Nat → Bool) (hq : ∀ t, quit t = false) (hc : ∀ t, choice t ∈ RGB_KEYS) :
    ∃ frames : List Image,
      generate_rgb_images n w h choice quit =
        some (frames.map QItem.frame ++ [QItem.sentinel]) ∧
      frames.length = n ∧
      ∀ f ∈ frames, f.height = h ∧ f.width = w ∧
        (∀ y x, (f.pix y x).1 ≤ 255 ∧ (f.pix y x).2.1 ≤ 255 ∧ (f.pix y x).2.2 ≤ 255) ∧
        (PyDict.get? RGB_COLORS
          (PyKey.rgb (f.pix 0 0).1 (f.pix 0 0).2.1 (f.pix 0 0).2.2)).isSome :=
  generatorLoop_spec w h choice quit hq hc n 0

/-- Witness for C1: one 3×2 frame of "red". -/
theorem generate_rgb_images_spec_witness :
    (∀ t : Nat, (fun _ : Nat => false) t = false) ∧
    (∀ t : Nat, (fun _ : Nat => PyKey.s "red") t ∈ RGB_KEYS) ∧
    (∃ frames : List Image,
      generate_rgb_images 1 3 2 (fun _ => PyKey.s "red") (fun _ => false) =
        some (frames.map QItem.frame ++ [QItem.sentinel]) ∧
      frames.length = 1 ∧
      ∀ f ∈ frames, f.height = 2 ∧ f.width = 3 ∧
        (∀ y x, (f.pix y x).1 ≤ 255 ∧ (f.pix y x).2.1 ≤ 255 ∧ (f.pix y x).2.2 ≤ 255) ∧
        (PyDict.get? RGB_COLORS
          (PyKey.rgb (f.pix 0 0).1 (f.pix 0 0).2.1 (f.pix 0 0).2.2)).isSome) :=
  ⟨fun _ => rfl, fun _ => (by decide : PyKey.s "red" ∈ RGB_KEYS),
    generate_rgb_images_spec 1 3 2 (fun _ => PyKey.s "red") (fun _ => false)
      (fun _ => rfl) (fun _ => (by decide : PyKey.s "red" ∈ RGB_KEYS))⟩

/-- Height of an `np.full` frame. -/
theorem npFull_height (h w : Nat) (c : Nat × Nat × Nat) : (npFull h w c).height = h :=
  rfl

/-- Width of an `np.full` frame. -/
theorem npFull_width (h w : Nat) (c : Nat × Nat × Nat) : (npFull h w c).width = w :=
  rfl

/-- Every pixel of an `np.full` frame is the fill color. -/
theorem npFull_pix (h w : Nat) (c : Nat × Nat × Nat) (y x : Nat) :
    (npFull h w c).pix y x = c :=
  rfl

/-- A pixel strictly outside the drawn circle is left untouched. -/
theorem cv2_circle_pix_outside (img : Image) (cx cy r : Nat) (col : Nat × Nat × Nat)
    (y x : Nat)
    (hout : ¬(((x : Int) - cx) ^ 2 + ((y : Int) - cy) ^ 2 ≤ (r : Int) ^ 2)) :
    (cv2_circle img cx cy r col).pix y x = img.pix y x := by
  simp [cv2_circle, hout]

/-- Unless the frame is 1×1, the representative pixel (0,0) lies strictly
outside the circle of radius `min h w / 4` centered at `(w/2, h/2)`, so
drawing the circle leaves it untouched. -/
theorem corner_outside_circle (w h : Nat) (hw : 1 ≤ w) (hh : 1 ≤ h)
    (hdim : ¬(w = 1 ∧ h = 1)) :
    ¬(((0 : Int) - (w / 2 : Nat)) ^ 2 + ((0 : Int) - (h / 2 : Nat)) ^ 2 ≤
        ((min h w / 4 : Nat) : Int) ^ 2) := by
  have hnat : min h w / 4 * (min h w / 4) < w / 2 * (w / 2) + h / 2 * (h / 2) := by
    rcases Nat.lt_or_ge (min h w) 2 with hm | hm
    · have hr : min h w / 4 = 0 := by omega
      have hab : 1 ≤ w / 2 ∨ 1 ≤ h / 2 := by omega
      rw [hr]
      rcases hab with h1 | h1
      · exact Nat.lt_of_lt_of_le (Nat.mul_pos h1 h1) (Nat.le_add_right _ _)
      · exact Nat.lt_of_lt_of_le (Nat.mul_pos h1 h1) (Nat.le_add_left _ _)
    · have h1 : min h w / 4 < min h w / 2 := by omega
      have h2 : min h w / 2 ≤ w / 2 := by omega
      have k1 : min h w / 4 * (min h w / 4) < w / 2 * (w / 2) :=
        Nat.lt_of_lt_of_le (Nat.mul_self_lt_mul_self h1) (Nat.mul_le_mul h2 h2)
      exact Nat.lt_of_lt_of_le k1 (Nat.le_add_right _ _)
  rw [not_le]
  have hcast : ((min h w / 4 : Nat) : Int) * ((min h w / 4 : Nat) : Int) <
      ((w / 2 : Nat) : Int) * ((w / 2 : Nat) : Int) +
      ((h / 2 : Nat) : Int) * ((h / 2 : Nat) : Int) := by
    exact_mod_cast hnat
  nlinarith [hcast]

/-- C4 (counterexample): for a 1×1 frame uniformly filled black, the
radius-0 filled circle paints the frame's only pixel — which is also the
representative pixel (0,0) — with the complement color, so the label resolves
to "white" rather than the fill color's catalog name "black". -/
theorem watermark_label_counterexample :
    (watermarkFrame (npFull 1 1 (0, 0, 0))).map Watermarked.text = some "white" ∧
    PyDict.get? RGB_COLORS (PyKey.rgb 0 0 0) = some (PyKey.s "black") ∧
    "white" ≠ "black" := by
  refine ⟨?_, by decide, by decide⟩
  rfl

/-- C4 (amended): for every uniformly filled frame whose fill color `c` is a
catalog entry, the Watermarker draws a filled circle centered at
`(width/2, height/2)` with radius `min height width / 4` in the complement
color `(255,255,255) - c`, both text and circle in that complement color —
and, provided the frame is not 1×1 (so the circle misses pixel (0,0)), the
label text it draws is the catalog name of `c`, obtained by inspecting the
representative pixel after the circle is drawn. -/
theorem watermark_draws_complement_circle (hgt wdt : Nat) (c : Nat × Nat × Nat)
    (name : String)
    (hc : PyDict.get? RGB_COLORS (PyKey.rgb c.1 c.2.1 c.2.2) = some (PyKey.s name))
    (hh : 1 ≤ hgt) (hw : 1 ≤ wdt) (hdim : ¬(wdt = 1 ∧ hgt = 1)) :
    ∃ wm, watermarkFrame (npFull hgt wdt c) = some wm ∧
      wm.center = (wdt / 2, hgt / 2) ∧
      wm.radius = min hgt wdt / 4 ∧
      wm.circleColor = complementN c ∧
      wm.text = name ∧
      wm.textColor = complementN c := by
  have hout := corner_outside_circle wdt hgt hw hh hdim
  refine ⟨⟨cv2_circle (npFull hgt wdt c) (wdt / 2) (hgt / 2) (min hgt wdt / 4)
      (complementN c), (wdt / 2, hgt / 2), min hgt wdt / 4, complementN c, name,
      complementN c⟩, ?_, rfl, rfl, rfl, rfl, rfl⟩
  simp only [watermarkFrame, npFull_height, npFull_width, npFull_pix]
  rw [cv2_circle_pix_outside (npFull hgt wdt c) (wdt / 2) (hgt / 2)
      (min hgt wdt / 4) (complementN c) 0 0 (by simpa using hout)]
  simp only [npFull_pix]
  rw [hc]

/-- Witness for the amended C4: a 2×2 black frame. -/
theorem watermark_draws_complement_circle_witness :
    PyDict.get? RGB_COLORS (PyKey.rgb 0 0 0) = some (PyKey.s "black") ∧
    (1 ≤ 2 ∧ ¬(2 = 1 ∧ 2 = 1)) ∧
    (∃ wm, watermarkFrame (npFull 2 2 (0, 0, 0)) = some wm ∧
      wm.center = (2 / 2, 2 / 2) ∧
      wm.radius = min 2 2 / 4 ∧
      wm.circleColor = complementN (0, 0, 0) ∧
      wm.text = "black" ∧
      wm.textColor = complementN (0, 0, 0)) :=
  ⟨by decide, by decide,
    watermark_draws_complement_circle 2 2 (0, 0, 0) "black"
      (by decide) (by decide) (by decide) (by decide)⟩

/-- C7: each Frame Relay iteration, started with `quit` unset: if the popped
item is the sentinel, the relay sets `quit` and exits the loop without
writing the Shared Frame Buffer; otherwise it overwrites the whole buffer
with the popped frame, and the accompanying `started`-set and
`ready-for-next`-clear occur between acquiring and releasing the buffer
lock, i.e. in the locked middle segment of the iteration's step sequence. -/
theorem relay_iteration_spec (s : RelayState) (img : Image) (rest : List QItem)
    (hq : s.quit = false) :
    (runActions s (relayIter QItem.sentinel) = { s with quit := true } ∧
      (∀ i, RelayAction.writeBuffer i ∉ relayIter QItem.sentinel) ∧
      (runActions s (relayIter QItem.sentinel)).buffer = s.buffer ∧
      relayLoop s (QItem.sentinel :: rest) =
        ({ s with quit := true }, relayIter QItem.sentinel)) ∧
    (runActions s (relayIter (QItem.frame img)) =
        { s with buffer := some img, started := true, nextImg := false } ∧
      relayIter (QItem.frame img) =
        [RelayAction.waitNextImg, RelayAction.popQueueB (QItem.frame img),
         RelayAction.acquireLock] ++
          [RelayAction.writeBuffer img, RelayAction.setStarted,
           RelayAction.clearNextImg] ++ [RelayAction.releaseLock] ∧
      (∀ a ∈ relayIter (QItem.frame img), mutatesState a = true →
        a ∈ [RelayAction.writeBuffer img, RelayAction.setStarted,
             RelayAction.clearNextImg])) := by
  refine ⟨⟨rfl, ?_, rfl, ?_⟩, rfl, rfl, ?_⟩
  · intro i hmem
    simp [relayIter] at hmem
  · simp [relayLoop, hq, runActions, relayIter, applyAction]
  · intro a ha hm
    simp only [relayIter, List.cons_append, List.nil_append, List.mem_cons,
      List.not_mem_nil, or_false] at ha
    rcases ha with h | h | h | h | h | h | h <;> subst h <;>
      simp_all [mutatesState]

/-- Witness for C7 on the initial relay state and a concrete frame. -/
theorem relay_iteration_spec_witness :
    runActions { buffer := none, started := false, nextImg := true, quit := false }
        (relayIter QItem.sentinel) =
      { buffer := none, started := false, nextImg := true, quit := true } :=
  (relay_iteration_spec
    { buffer := none, started := false, nextImg := true, quit := false }
    (npFull 1 1 (0, 0, 0)) [] rfl).1.1

/-- The drain loop empties both queues and counts every removed item, when
no stage is live. -/
theorem cleanup_drains {α : Type} :
    ∀ (N : Nat) (qa qb : List α) (count : Nat), qa.length + qb.length ≤ N →
      cleanup qa qb count = (count + (qa.length + qb.length), [], []) := by
  intro N
  induction N with
  | zero =>
    intro qa qb count hlen
    have hqa : qa = [] := List.length_eq_zero.mp (by omega)
    have hqb : qb = [] := List.length_eq_zero.mp (by omega)
    subst hqa
    subst hqb
    rw [cleanup]
    simp [popFront]
  | succ N ih =>
    intro qa qb count hlen
    rw [cleanup]
    rcases qa with _ | ⟨a, qa⟩
    · rcases qb with _ | ⟨b, qb⟩
      · simp [popFront]
      · simp only [popFront, Option.isSome_some, if_true, Option.isSome_none,
          Bool.false_eq_true, if_false, List.isEmpty_nil]
        by_cases hqb : qb = []
        · subst hqb
          simp
        · rw [dif_neg (by simp [hqb])]
          rw [ih [] qb _ (by simp at hlen ⊢; omega)]
          simp only [List.length_nil, List.length_cons, Prod.mk.injEq, and_true]
          omega
    · rcases qb with _ | ⟨b, qb⟩
      · simp only [popFront, Option.isSome_some, if_true, Option.isSome_none,
          Bool.false_eq_true, if_false, List.isEmpty_nil]
        by_cases hqa : qa = []
        · subst hqa
          simp
        · rw [dif_neg (by simp [hqa])]
          rw [ih qa [] _ (by simp at hlen ⊢; omega)]
          simp only [List.length_nil, List.length_cons, Prod.mk.injEq, and_true]
          omega
      · simp only [popFront, Option.isSome_some, if_true]
        by_cases hab : qa = [] ∧ qb = []
        · rcases hab with ⟨h1, h2⟩
          subst h1
          subst h2
          simp
        · rw [dif_neg (by
            simp only [List.isEmpty_iff]
            intro hcon
            exact hab ⟨hcon.1, hcon.2⟩)]
          rw [ih qa qb _ (by simp at hlen ⊢; omega)]
          simp only [List.length_cons, Prod.mk.injEq, and_true]
          omega

/-- C6: invoking `cleanup` on two channels holding `a` and `b` ordinary items
plus one sentinel each, with no live stages, terminates, reports a drained
count of `a + b + 2`, and leaves both channels empty. -/
theorem cleanup_spec (items_a items_b : List (Option Nat)) :
    cleanup (items_a ++ [none]) (items_b ++ [none]) 0 =
      (items_a.length + items_b.length + 2, [], []) := by
  rw [cleanup_drains (items_a.length + 1 + (items_b.length + 1))
      (items_a ++ [none]) (items_b ++ [none]) 0 (by simp)]
  simp only [List.length_append, List.length_cons, List.length_nil, Prod.mk.injEq,
    and_true]
  omega
